import Mathlib

/-!
Verification of the Tidio-Products batch synchronization pipeline
(`src/app.py`) against its natural-language specification.

The Python source is shallowly embedded: each relevant Python function is
translated into an executable Lean definition over explicit data (lists,
association maps as functions, `Except` for exceptions, an integer clock
in seconds for wall-clock time, and oracles for HTTP responses).
-/

namespace TidioProducts

/-! ## Chunking

`batchedList n l` embeds Python's `itertools.batched(l, n)` (used both by
`create_batches` and the `__main__` manifest construction with
`TIDIO_MAX_PRODUCTS_PER_REQ = 100`, and by `fetch_all_prices` with
`chunk_size = 50`): contiguous chunks of size `n`, the last possibly
shorter.  `itertools.batched` raises for `n < 1`; theorems about it carry
the hypothesis `0 < n`. -/

def batchedList {α : Type} (n : Nat) : List α → List (List α)
  | [] => []
  | x :: xs => (x :: xs.take (n - 1)) :: batchedList n (xs.drop (n - 1))
termination_by l => l.length
decreasing_by simp [List.length_drop]; omega

theorem batchedList_nil {α : Type} (n : Nat) : batchedList n ([] : List α) = [] := by
  simp [batchedList]

theorem batchedList_cons {α : Type} (n : Nat) (x : α) (xs : List α) :
    batchedList n (x :: xs) = (x :: xs.take (n - 1)) :: batchedList n (xs.drop (n - 1)) := by
  simp [batchedList]

theorem batchedList_eq_nil_iff {α : Type} (n : Nat) (l : List α) :
    batchedList n l = [] ↔ l = [] := by
  cases l with
  | nil => simp [batchedList]
  | cons x xs => simp [batchedList_cons]

/-- Concatenating the chunks reconstructs the input. -/
theorem batchedList_flatten {α : Type} (n : Nat) :
    (l : List α) → (batchedList n l).flatten = l
  | [] => by simp [batchedList]
  | x :: xs => by
    rw [batchedList_cons, List.flatten_cons, batchedList_flatten n (xs.drop (n - 1))]
    simp
termination_by l => l.length
decreasing_by simp [List.length_drop]; omega

/-- The number of chunks is `⌈length / n⌉`. -/
theorem batchedList_length {α : Type} (n : Nat) (hn : 0 < n) :
    (l : List α) → (batchedList n l).length = (l.length + n - 1) / n
  | [] => by
    simp [batchedList, Nat.div_eq_of_lt (by omega : n - 1 < n)]
  | x :: xs => by
    rw [batchedList_cons, List.length_cons,
      batchedList_length n hn (xs.drop (n - 1))]
    simp only [List.length_drop, List.length_cons]
    rcases le_or_lt (n - 1) xs.length with h | h
    · have h1 : xs.length - (n - 1) + n - 1 = xs.length := by omega
      have h2 : xs.length + 1 + n - 1 = xs.length + n := by omega
      rw [h1, h2, Nat.add_div_right _ hn]
    · have h1 : xs.length - (n - 1) = 0 := by omega
      have h2 : xs.length + 1 + n - 1 = xs.length + n := by omega
      rw [h1, h2, Nat.add_div_right _ hn, Nat.zero_add,
        Nat.div_eq_of_lt (by omega : n - 1 < n),
        Nat.div_eq_of_lt (by omega : xs.length < n)]
termination_by l => l.length
decreasing_by simp [List.length_drop]; omega

/-- Every chunk except the last has exactly `n` elements. -/
theorem batchedList_size_of_not_last {α : Type} (n : Nat) (hn : 0 < n) :
    (l : List α) → (i : Nat) → (c : List α) → (batchedList n l)[i]? = some c →
      i + 1 < (batchedList n l).length → c.length = n
  | [], i, c, hc, _ => by simp [batchedList] at hc
  | x :: xs, 0, c, hc, hlast => by
    rw [batchedList_cons] at hc hlast
    simp only [List.length_cons] at hlast
    have hrest : batchedList n (xs.drop (n - 1)) ≠ [] := by
      intro hnil
      rw [hnil] at hlast
      simp at hlast
    have hrest2 : xs.drop (n - 1) ≠ [] := fun hnil => hrest (by rw [hnil, batchedList_nil])
    have hpos : 0 < (xs.drop (n - 1)).length := List.length_pos.mpr hrest2
    rw [List.length_drop] at hpos
    simp only [List.getElem?_cons_zero, Option.some.injEq] at hc
    subst hc
    simp only [List.length_cons, List.length_take]
    omega
  | x :: xs, i + 1, c, hc, hlast => by
    rw [batchedList_cons] at hc hlast
    simp only [List.length_cons] at hlast
    rw [List.getElem?_cons_succ] at hc
    exact batchedList_size_of_not_last n hn (xs.drop (n - 1)) i c hc (by omega)
termination_by l => l.length
decreasing_by simp [List.length_drop]; omega

/-! ## Checkpoint manifest data model

Embeds the manifest dictionaries built by `create_batches` and the
`__main__` block of `src/app.py` (fields `meta.total_products`,
`meta.total_batches`, `meta.created_at` and per-batch
`index`, `size`, `status`, `sent_at`, `products`).  Batch status strings
`"pending"`, `"sent"`, `"failed"` become an inductive type. -/

inductive BatchStatus : Type
  | pending
  | sent
  | failed
deriving DecidableEq, Repr

structure BatchEntry (P : Type) : Type where
  index : Nat
  size : Nat
  status : BatchStatus
  sent_at : Option Int
  products : List P
deriving DecidableEq, Repr

structure ManifestMeta : Type where
  total_products : Nat
  total_batches : Nat
  created_at : Int
deriving DecidableEq, Repr

structure Manifest (P : Type) : Type where
  meta : ManifestMeta
  batches : List (BatchEntry P)
deriving DecidableEq, Repr

def TIDIO_MAX_PRODUCTS_PER_REQ : Nat := 100

def CHECKPOINT_EVERY_N_BATCHES : Nat := 5

/-- The `batches` list built by `create_batches` / `__main__`:
`{"index": i, "size": len(b), "status": "pending", "sent_at": None,
"products": b}` for each enumerated chunk. -/
def makeBatches {P : Type} (products : List P) (maxBatchSize : Nat) : List (BatchEntry P) :=
  (batchedList maxBatchSize products).enum.map (fun ib =>
    { index := ib.1, size := ib.2.length, status := .pending, sent_at := none,
      products := ib.2 })

/-- Embeds `create_batches(products)` of `src/app.py` (manifest construction; the
`__main__` block builds the identical manifest, plus a `sync_type` string
that no claim concerns).  The chunk size is fixed to
`TIDIO_MAX_PRODUCTS_PER_REQ = 100`; `makeBatches` keeps it a parameter so
the partition property can be stated for every `M`, as the spec does. -/
def create_batches {P : Type} (now : Int) (products : List P) : Manifest P :=
  { meta := { total_products := products.length,
              total_batches := (batchedList TIDIO_MAX_PRODUCTS_PER_REQ products).length,
              created_at := now },
    batches := makeBatches products TIDIO_MAX_PRODUCTS_PER_REQ }

theorem makeBatches_length {P : Type} (products : List P) (M : Nat) :
    (makeBatches products M).length = (batchedList M products).length := by
  simp [makeBatches]

theorem makeBatches_map_products {P : Type} (products : List P) (M : Nat) :
    (makeBatches products M).map (fun b => b.products) = batchedList M products := by
  unfold makeBatches
  rw [List.map_map]
  have : ((fun b : BatchEntry P => b.products) ∘
      (fun ib : Nat × List P =>
        ({ index := ib.1, size := ib.2.length, status := .pending, sent_at := none,
           products := ib.2 } : BatchEntry P))) = Prod.snd := by
    funext ib
    rfl
  rw [this, List.enum_map_snd]

theorem makeBatches_map_index {P : Type} (products : List P) (M : Nat) :
    (makeBatches products M).map (fun b => b.index) =
      List.range (batchedList M products).length := by
  unfold makeBatches
  rw [List.map_map]
  have : ((fun b : BatchEntry P => b.index) ∘
      (fun ib : Nat × List P =>
        ({ index := ib.1, size := ib.2.length, status := .pending, sent_at := none,
           products := ib.2 } : BatchEntry P))) = Prod.fst := by
    funext ib
    rfl
  rw [this, List.enum_map_fst]

/-- Claim C4. For every list of `N` records and max batch size `M > 0`, the
batcher produces `⌈N/M⌉` batches; every batch but the last has exactly `M`
records; batch indices are contiguous `0..⌈N/M⌉-1` in list order; every
batch starts in state `pending`; and concatenating the batches' products
in index order reconstructs the input record sequence exactly. -/
theorem claim_C4_partition_correctness {P : Type} (products : List P) (M : Nat)
    (hM : 0 < M) :
    (makeBatches products M).length = (products.length + M - 1) / M ∧
    (∀ i e, (makeBatches products M)[i]? = some e →
        i + 1 < (makeBatches products M).length → e.products.length = M) ∧
    (makeBatches products M).map (fun b => b.index) =
      List.range ((makeBatches products M).length) ∧
    (∀ e ∈ makeBatches products M, e.status = BatchStatus.pending) ∧
    ((makeBatches products M).map (fun b => b.products)).flatten = products := by
  refine ⟨?_, ?_, ?_, ?_, ?_⟩
  · rw [makeBatches_length, batchedList_length M hM]
  · intro i e he hlast
    rw [makeBatches_length] at hlast
    unfold makeBatches at he
    rw [List.getElem?_map] at he
    match hq : (batchedList M products).enum[i]? with
    | none => rw [hq] at he; simp at he
    | some q =>
      rw [hq] at he
      rw [Option.map_some' q] at he
      have he2 : e.products = q.2 := by
        rw [← Option.some.inj he]
      have hq2 : (batchedList M products)[i]? = some q.2 := by
        have hi : i < (batchedList M products).enum.length := (List.getElem?_eq_some.mp hq).1
        rw [List.enum_length] at hi
        have := List.getElem_enum (batchedList M products) i (by rwa [List.enum_length])
        rw [List.getElem?_eq_getElem hi]
        rw [List.getElem?_eq_getElem (by rwa [List.enum_length] : i < (batchedList M products).enum.length)] at hq
        simp only [Option.some.injEq] at hq
        rw [← hq, this]
      have := batchedList_size_of_not_last M hM products i q.2 hq2 hlast
      rw [he2]
      exact this
  · rw [makeBatches_map_index, makeBatches_length]
  · intro e he
    unfold makeBatches at he
    rw [List.mem_map] at he
    obtain ⟨ib, _, hib⟩ := he
    rw [← hib]
  · rw [makeBatches_map_products, batchedList_flatten]

/-- Witness for C4 at a concrete input: 5 records, batch size 2. -/
theorem claim_C4_witness :
    (0 : Nat) < 2 ∧
    ((makeBatches [10, 20, 30, 40, 50] 2).length = (5 + 2 - 1) / 2 ∧
    (∀ i e, (makeBatches [10, 20, 30, 40, 50] 2)[i]? = some e →
        i + 1 < (makeBatches [10, 20, 30, 40, 50] 2).length → e.products.length = 2) ∧
    (makeBatches [10, 20, 30, 40, 50] 2).map (fun b => b.index) =
      List.range ((makeBatches [10, 20, 30, 40, 50] 2).length) ∧
    (∀ e ∈ makeBatches [10, 20, 30, 40, 50] 2, e.status = BatchStatus.pending) ∧
    ((makeBatches [10, 20, 30, 40, 50] 2).map (fun b => b.products)).flatten =
      [10, 20, 30, 40, 50]) :=
  ⟨by decide, claim_C4_partition_correctness [10, 20, 30, 40, 50] 2 (by decide)⟩

/-! ## Sync engine: `send_batches`

`send_batches(manifest, wd)` of `src/app.py` iterates the manifest's
batches in list order.  A batch whose status is `"sent"` is skipped with
`continue` (no delivery call, no flush, no checkpoint test).  Otherwise
`tidio.upsert_product_batch` is attempted: on success the entry becomes
`sent` with a `sent_at` timestamp, on any exception it becomes `failed`
and `all_ok = False`; the `finally` block always rewrites the local
manifest file; then, still inside the loop body, the *whole* manifest's
current `sent` count is taken and the manifest is uploaded to WorkDrive
whenever that count is divisible by `CHECKPOINT_EVERY_N_BATCHES = 5`.

The delivery call is abstracted by an oracle `deliver : BatchEntry P →
Bool` (`true` = the HTTP upsert succeeded, `false` = it raised); `now` is
the timestamp recorded in `sent_at`.  The run is embedded as a pure fold
that also emits the ordered trace of observable I/O events. -/

inductive SyncEvent : Type
  | deliveryCall (index : Nat)
  | localFlush
  | remoteCheckpoint
deriving DecidableEq, Repr

/-- Embeds `sum(1 for b in manifest["batches"] if b["status"] == "sent")`. -/
def sentCount {P : Type} (batches : List (BatchEntry P)) : Nat :=
  (batches.filter (fun b => b.status = BatchStatus.sent)).length

/-- The effect of one loop iteration of `send_batches` on its batch entry. -/
def processEntry {P : Type} (deliver : BatchEntry P → Bool) (now : Int)
    (e : BatchEntry P) : BatchEntry P :=
  if e.status = BatchStatus.sent then e
  else if deliver e then { e with status := BatchStatus.sent, sent_at := some now }
  else { e with status := BatchStatus.failed }

/-- The loop of `send_batches`: `done` holds the already-visited (and
possibly updated) prefix of the manifest's batch list, mirroring that the
Python code mutates the entries of `manifest["batches"]` in place.
Returns the final batch list, the `all_ok` flag and the event trace. -/
def sendBatchesGo {P : Type} (deliver : BatchEntry P → Bool) (now : Int)
    (done : List (BatchEntry P)) (allOk : Bool) :
    List (BatchEntry P) → List (BatchEntry P) × Bool × List SyncEvent
  | [] => (done, allOk, [])
  | e :: rest =>
    if e.status = BatchStatus.sent then
      sendBatchesGo deliver now (done ++ [e]) allOk rest
    else
      let ok := deliver e
      let e2 := if ok then { e with status := BatchStatus.sent, sent_at := some now }
                else { e with status := BatchStatus.failed }
      let evs2 := if sentCount (done ++ e2 :: rest) % CHECKPOINT_EVERY_N_BATCHES = 0
                  then [SyncEvent.remoteCheckpoint] else []
      let r := sendBatchesGo deliver now (done ++ [e2]) (allOk && ok) rest
      (r.1, r.2.1,
        SyncEvent.deliveryCall e.index :: SyncEvent.localFlush :: (evs2 ++ r.2.2))

/-- Embeds `send_batches(manifest, wd)` of `src/app.py`. -/
def send_batches {P : Type} (deliver : BatchEntry P → Bool) (now : Int)
    (manifest : Manifest P) : List (BatchEntry P) × Bool × List SyncEvent :=
  sendBatchesGo deliver now [] true manifest.batches

theorem sendBatchesGo_fst {P : Type} (deliver : BatchEntry P → Bool) (now : Int) :
    (l : List (BatchEntry P)) → (done : List (BatchEntry P)) → (allOk : Bool) →
      (sendBatchesGo deliver now done allOk l).1 =
        done ++ l.map (processEntry deliver now)
  | [], done, allOk => by simp [sendBatchesGo]
  | e :: rest, done, allOk => by
    rw [List.map_cons]
    by_cases hs : e.status = BatchStatus.sent
    · rw [sendBatchesGo, if_pos hs,
        sendBatchesGo_fst deliver now rest (done ++ [e]) allOk]
      simp [processEntry, hs]
    · rw [sendBatchesGo, if_neg hs]
      simp only
      rw [sendBatchesGo_fst deliver now rest _ _]
      simp only [processEntry, if_neg hs, List.append_assoc, List.singleton_append]

theorem sendBatchesGo_events_origin {P : Type} (deliver : BatchEntry P → Bool)
    (now : Int) :
    (l : List (BatchEntry P)) → (done : List (BatchEntry P)) → (allOk : Bool) →
      ∀ idx, SyncEvent.deliveryCall idx ∈ (sendBatchesGo deliver now done allOk l).2.2 →
        ∃ e ∈ l, e.index = idx ∧ e.status ≠ BatchStatus.sent
  | [], done, allOk => by simp [sendBatchesGo]
  | e :: rest, done, allOk => by
    intro idx hmem
    by_cases hs : e.status = BatchStatus.sent
    · rw [sendBatchesGo, if_pos hs] at hmem
      obtain ⟨e2, he2, hidx⟩ :=
        sendBatchesGo_events_origin deliver now rest (done ++ [e]) allOk idx hmem
      exact ⟨e2, List.mem_cons_of_mem e he2, hidx⟩
    · rw [sendBatchesGo, if_neg hs] at hmem
      simp only [List.mem_cons] at hmem
      rcases hmem with h1 | h2 | h3
      · exact ⟨e, List.mem_cons_self e rest, (SyncEvent.deliveryCall.injEq idx e.index ▸ h1).symm, hs⟩
      · exact absurd h2 (by simp)
      · rw [List.mem_append] at h3
        rcases h3 with h4 | h5
        · by_cases hc : sentCount (done ++
              (if deliver e then { e with status := BatchStatus.sent, sent_at := some now }
               else { e with status := BatchStatus.failed }) :: rest) %
                CHECKPOINT_EVERY_N_BATCHES = 0
          · rw [if_pos hc] at h4
            simp at h4
          · rw [if_neg hc] at h4
            simp at h4
        · obtain ⟨e2, he2, hidx⟩ :=
            sendBatchesGo_events_origin deliver now rest _ _ idx h5
          exact ⟨e2, List.mem_cons_of_mem e he2, hidx⟩

theorem sendBatchesGo_all_sent {P : Type} (deliver : BatchEntry P → Bool) (now : Int) :
    (l : List (BatchEntry P)) → (done : List (BatchEntry P)) → (allOk : Bool) →
      (∀ e ∈ l, e.status = BatchStatus.sent) →
      sendBatchesGo deliver now done allOk l = (done ++ l, allOk, [])
  | [], done, allOk, _ => by simp [sendBatchesGo]
  | e :: rest, done, allOk, hall => by
    have hs : e.status = BatchStatus.sent := hall e (List.mem_cons_self e rest)
    rw [sendBatchesGo, if_pos hs,
      sendBatchesGo_all_sent deliver now rest (done ++ [e]) allOk
        (fun x hx => hall x (List.mem_cons_of_mem e hx))]
    simp

/-- Claim C5. The status `sent` is absorbing: for every manifest and every
delivery oracle, `send_batches` (1) leaves every batch whose status is
already `sent` exactly unchanged at its position, (2) never emits a
delivery call for a batch that was not in a non-`sent` state, and (3) on
a manifest in which every batch is `sent` it performs zero delivery calls
(an empty event trace: no call, no flush, no checkpoint), leaves the
batch list unchanged and reports overall success (`all_ok = True`). -/
theorem claim_C5_sent_is_absorbing {P : Type} (deliver : BatchEntry P → Bool)
    (now : Int) (manifest : Manifest P) :
    (∀ (i : Nat) (e : BatchEntry P), manifest.batches[i]? = some e →
        e.status = BatchStatus.sent →
        (send_batches deliver now manifest).1[i]? = some e) ∧
    (∀ idx, SyncEvent.deliveryCall idx ∈ (send_batches deliver now manifest).2.2 →
        ∃ e ∈ manifest.batches, e.index = idx ∧ e.status ≠ BatchStatus.sent) ∧
    ((∀ e ∈ manifest.batches, e.status = BatchStatus.sent) →
        send_batches deliver now manifest = (manifest.batches, true, [])) := by
  refine ⟨?_, ?_, ?_⟩
  · intro i e he hs
    unfold send_batches
    rw [sendBatchesGo_fst, List.nil_append, List.getElem?_map, he]
    simp [processEntry, hs]
  · intro idx hmem
    exact sendBatchesGo_events_origin deliver now manifest.batches [] true idx hmem
  · intro hall
    unfold send_batches
    rw [sendBatchesGo_all_sent deliver now manifest.batches [] true hall, List.nil_append]

/-- Witness for C5: a two-batch manifest in which both batches are already
`sent`; the first batch is returned unchanged and resuming performs zero
delivery calls (empty trace), keeps the batch list and reports success. -/
theorem claim_C5_witness :
    (send_batches (fun _ => true) 0
        (⟨⟨2, 2, 0⟩, [⟨0, 1, BatchStatus.sent, some 5, [7]⟩,
          ⟨1, 1, BatchStatus.sent, some 6, [9]⟩]⟩ : Manifest Nat)).1[0]? =
      some ⟨0, 1, BatchStatus.sent, some 5, [7]⟩ ∧
    send_batches (fun _ => true) 0
        (⟨⟨2, 2, 0⟩, [⟨0, 1, BatchStatus.sent, some 5, [7]⟩,
          ⟨1, 1, BatchStatus.sent, some 6, [9]⟩]⟩ : Manifest Nat) =
      ([⟨0, 1, BatchStatus.sent, some 5, [7]⟩,
        ⟨1, 1, BatchStatus.sent, some 6, [9]⟩], true, []) :=
  ⟨(claim_C5_sent_is_absorbing (fun _ => true) 0
      ⟨⟨2, 2, 0⟩, [⟨0, 1, BatchStatus.sent, some 5, [7]⟩,
        ⟨1, 1, BatchStatus.sent, some 6, [9]⟩]⟩).1 0
      ⟨0, 1, BatchStatus.sent, some 5, [7]⟩ rfl rfl,
   (claim_C5_sent_is_absorbing (fun _ => true) 0
      ⟨⟨2, 2, 0⟩, [⟨0, 1, BatchStatus.sent, some 5, [7]⟩,
        ⟨1, 1, BatchStatus.sent, some 6, [9]⟩]⟩).2.2 (by decide)⟩

theorem sentCount_nil {P : Type} : sentCount ([] : List (BatchEntry P)) = 0 := rfl

theorem sentCount_cons {P : Type} (e : BatchEntry P) (l : List (BatchEntry P)) :
    sentCount (e :: l) =
      (if e.status = BatchStatus.sent then 1 else 0) + sentCount l := by
  by_cases hs : e.status = BatchStatus.sent <;>
    simp [sentCount, List.filter_cons, hs, Nat.add_comm]

theorem sentCount_append {P : Type} (a b : List (BatchEntry P)) :
    sentCount (a ++ b) = sentCount a + sentCount b := by
  simp [sentCount, List.filter_append]

/-- The checkpoint discipline that `send_batches` actually implements,
restated without the loop accumulator: for every position `i` holding a
non-`sent` entry there is one delivery call and one local flush, followed
by a remote checkpoint exactly when `base` (sent batches before this
manifest slice) plus the number of `sent` batches in the whole manifest —
the already-updated prefix together with the untouched suffix — is
divisible by `CHECKPOINT_EVERY_N_BATCHES`. -/
def amendedEventsFrom {P : Type} (deliver : BatchEntry P → Bool) (now : Int)
    (base : Nat) (batches : List (BatchEntry P)) : List SyncEvent :=
  (List.range batches.length).flatMap (fun i =>
    match batches[i]? with
    | none => []
    | some e =>
      if e.status = BatchStatus.sent then []
      else
        SyncEvent.deliveryCall e.index :: SyncEvent.localFlush ::
          (if (base + sentCount ((batches.take (i + 1)).map (processEntry deliver now)
                ++ batches.drop (i + 1))) % CHECKPOINT_EVERY_N_BATCHES = 0
           then [SyncEvent.remoteCheckpoint] else []))

def amendedEvents {P : Type} (deliver : BatchEntry P → Bool) (now : Int)
    (batches : List (BatchEntry P)) : List SyncEvent :=
  amendedEventsFrom deliver now 0 batches

theorem amendedEventsFrom_nil {P : Type} (deliver : BatchEntry P → Bool) (now : Int)
    (base : Nat) : amendedEventsFrom deliver now base [] = [] := by
  simp [amendedEventsFrom]

theorem amendedEventsFrom_cons {P : Type} (deliver : BatchEntry P → Bool) (now : Int)
    (base : Nat) (e : BatchEntry P) (rest : List (BatchEntry P)) :
    amendedEventsFrom deliver now base (e :: rest) =
      (if e.status = BatchStatus.sent then []
       else
        SyncEvent.deliveryCall e.index :: SyncEvent.localFlush ::
          (if (base + sentCount (processEntry deliver now e :: rest)) %
                CHECKPOINT_EVERY_N_BATCHES = 0
           then [SyncEvent.remoteCheckpoint] else [])) ++
      amendedEventsFrom deliver now
        (base + (if (processEntry deliver now e).status = BatchStatus.sent then 1 else 0))
        rest := by
  unfold amendedEventsFrom
  rw [List.length_cons, List.range_succ_eq_map, List.flatMap_cons, List.flatMap_map]
  congr 1
  · simp only [List.getElem?_cons_zero, List.take_succ_cons, List.take_zero,
      List.map_cons, List.map_nil, List.drop_succ_cons, List.drop_zero,
      List.singleton_append, List.cons_append, List.nil_append]
  · apply List.flatMap_congr
    intro i _
    simp only [Function.comp_apply, List.getElem?_cons_succ, List.take_succ_cons,
      List.map_cons, List.drop_succ_cons]
    match rest[i]? with
    | none => rfl
    | some e2 =>
      by_cases hs : e2.status = BatchStatus.sent
      · simp [hs]
      · simp only [hs, if_false, sentCount_cons, Nat.add_assoc]
        refine congrArg (fun z =>
          SyncEvent.deliveryCall e2.index :: SyncEvent.localFlush :: z) ?_
        refine if_congr ?_ rfl rfl
        rw [sentCount_append, sentCount_cons, sentCount_append]
        simp [Nat.add_assoc]

theorem sendBatchesGo_events {P : Type} (deliver : BatchEntry P → Bool) (now : Int) :
    (l : List (BatchEntry P)) → (done : List (BatchEntry P)) → (allOk : Bool) →
      (sendBatchesGo deliver now done allOk l).2.2 =
        amendedEventsFrom deliver now (sentCount done) l
  | [], done, allOk => by simp [sendBatchesGo, amendedEventsFrom_nil]
  | e :: rest, done, allOk => by
    rw [amendedEventsFrom_cons]
    by_cases hs : e.status = BatchStatus.sent
    · rw [sendBatchesGo, if_pos hs,
        sendBatchesGo_events deliver now rest (done ++ [e]) allOk,
        sentCount_append]
      simp [processEntry, hs, sentCount_cons, sentCount_nil]
    · rw [sendBatchesGo, if_neg hs]
      simp only
      rw [sendBatchesGo_events deliver now rest _ _, if_neg hs, sentCount_append]
      have hproc : processEntry deliver now e =
          (if deliver e then { e with status := BatchStatus.sent, sent_at := some now }
           else { e with status := BatchStatus.failed }) := by
        rw [processEntry, if_neg hs]
      rw [← hproc]
      have h2 : sentCount (done ++ [processEntry deliver now e]) =
          sentCount done +
            (if (processEntry deliver now e).status = BatchStatus.sent then 1 else 0) := by
        simp [sentCount_append, sentCount_cons, sentCount_nil]
      rw [h2]
      simp [List.cons_append]

theorem sendBatchesGo_flush_count {P : Type} (deliver : BatchEntry P → Bool)
    (now : Int) :
    (l : List (BatchEntry P)) → (done : List (BatchEntry P)) → (allOk : Bool) →
      (sendBatchesGo deliver now done allOk l).2.2.count SyncEvent.localFlush =
        (l.filter (fun e => ¬ (e.status = BatchStatus.sent))).length
  | [], done, allOk => by simp [sendBatchesGo]
  | e :: rest, done, allOk => by
    by_cases hs : e.status = BatchStatus.sent
    · rw [sendBatchesGo, if_pos hs,
        sendBatchesGo_flush_count deliver now rest (done ++ [e]) allOk]
      simp [List.filter_cons, hs]
    · rw [sendBatchesGo, if_neg hs]
      simp only [List.count_cons, List.count_append,
        sendBatchesGo_flush_count deliver now rest _ _]
      by_cases hc : sentCount (done ++
          (if deliver e then { e with status := BatchStatus.sent, sent_at := some now }
           else { e with status := BatchStatus.failed }) :: rest) %
            CHECKPOINT_EVERY_N_BATCHES = 0
      · rw [if_pos hc]
        simp [List.filter_cons, hs]
      · rw [if_neg hc]
        simp [List.filter_cons, hs]

/-- Claim C9, counterexample. A fresh manifest with a single `pending`
batch whose delivery fails: `send_batches` still pushes a remote
checkpoint (because the total `sent` count is `0` and `0 % 5 = 0`),
although no batch has ever been successfully sent — so a remote
checkpoint does not occur "only when a new multiple of 5 batches has been
successfully sent". -/
theorem claim_C9_counterexample :
    (send_batches (fun _ => false) 0
        (⟨⟨1, 1, 0⟩, [⟨0, 1, BatchStatus.pending, none, [3]⟩]⟩ : Manifest Nat)).2.2 =
      [SyncEvent.deliveryCall 0, SyncEvent.localFlush, SyncEvent.remoteCheckpoint] ∧
    sentCount (send_batches (fun _ => false) 0
        (⟨⟨1, 1, 0⟩, [⟨0, 1, BatchStatus.pending, none, [3]⟩]⟩ : Manifest Nat)).1 = 0 ∧
    (send_batches (fun _ => false) 0
        (⟨⟨1, 1, 0⟩, [⟨0, 1, BatchStatus.pending, none, [3]⟩]⟩ : Manifest Nat)).2.1 =
      false := by
  refine ⟨?_, ?_, ?_⟩ <;> rfl

/-- Claim C9, amended. During `send_batches`, the manifest is flushed to
local storage after every single delivery attempt regardless of outcome
(one `localFlush` per non-`sent` batch).  The remote checkpoint, however,
is pushed after an attempt exactly when the total number of batches
currently marked `sent` in the whole manifest — including batches that
were already `sent` before the run and regardless of whether the attempt
itself succeeded — is divisible by `CHECKPOINT_EVERY_N_BATCHES = 5`
(zero counts as divisible): the event trace equals `amendedEvents`. -/
theorem claim_C9_amended_checkpoint_discipline {P : Type}
    (deliver : BatchEntry P → Bool) (now : Int) (manifest : Manifest P) :
    (send_batches deliver now manifest).2.2 =
      amendedEvents deliver now manifest.batches ∧
    (send_batches deliver now manifest).2.2.count SyncEvent.localFlush =
      (manifest.batches.filter (fun e => ¬ (e.status = BatchStatus.sent))).length := by
  constructor
  · unfold send_batches amendedEvents
    rw [sendBatchesGo_events deliver now manifest.batches [] true, sentCount_nil]
  · exact sendBatchesGo_flush_count deliver now manifest.batches [] true

/-! ## Rate-limited delivery client: `TidioAPI.upsert_product_batch`

The Python method, in order: (1) raises `ValueError` if `products` is
empty (or not a list); (2) raises `ValueError` if `len(products) > 100`;
(3) if a previous call exists, computes the elapsed whole seconds since
it and sleeps for the deficit below 7 seconds; (4) sets
`self.last_request_time` to the current time; (5) issues the PUT request
and raises `requests.HTTPError` on a non-2xx response.

Wall-clock time is embedded as an integer count of seconds (pendulum's
`.diff(...).in_seconds()` is exact at that granularity), the clock is
monotone, `time.sleep(d)` advances it by exactly `d`, and the statements
themselves take no time; `latency` is the response time of the PUT and
`httpSuccess` tells whether `raise_for_status` passes. -/

inductive TidioEvent : Type
  | sleep (duration : Int)
  | putRequest (startTime : Int) (numProducts : Nat)
deriving DecidableEq, Repr

inductive PyError : Type
  | valueError
  | httpError
  | parserError
deriving DecidableEq, Repr

structure UpsertRun : Type where
  events : List TidioEvent
  result : Except PyError Unit
  lastRequestTime : Option Int
  finishTime : Int
deriving Repr

/-- The time at which the PUT request is initiated, for a call entered at
time `t` with `last_request_time = last`: the elapsed seconds `t - s` are
compared with 7 and the deficit is slept away. -/
def upsertStart (t : Int) (last : Option Int) : Int :=
  match last with
  | none => t
  | some s => if t - s < 7 then t + (7 - (t - s)) else t

/-- Embeds `TidioAPI.upsert_product_batch(products)` of `src/app.py`, entered at
clock time `t` with the instance state `last` (`self.last_request_time`). -/
def upsert_product_batch {P : Type} (last : Option Int) (t : Int) (products : List P)
    (latency : Int) (httpSuccess : Bool) : UpsertRun :=
  if products.isEmpty then
    { events := [], result := .error PyError.valueError,
      lastRequestTime := last, finishTime := t }
  else if products.length > 100 then
    { events := [], result := .error PyError.valueError,
      lastRequestTime := last, finishTime := t }
  else
    let start := upsertStart t last
    let sleepEvents : List TidioEvent :=
      match last with
      | none => []
      | some s => if t - s < 7 then [TidioEvent.sleep (7 - (t - s))] else []
    { events := sleepEvents ++ [TidioEvent.putRequest start products.length],
      result := if httpSuccess then .ok () else .error PyError.httpError,
      lastRequestTime := some start,
      finishTime := start + latency }

/-- The request-initiation times of a sequence of (valid) upsert calls
through one `TidioAPI` instance, given the clock times at which the calls
are entered; each call leaves `last_request_time = ` its own initiation
time, which the next call's rate limiting reads. -/
def upsertStartTimes (last : Option Int) : List Int → List Int
  | [] => []
  | t :: ts => upsertStart t last :: upsertStartTimes (some (upsertStart t last)) ts

theorem upsertStart_ge (s t : Int) : s + 7 ≤ upsertStart t (some s) := by
  show s + 7 ≤ (if t - s < 7 then t + (7 - (t - s)) else t)
  by_cases h : t - s < 7
  · rw [if_pos h]
    omega
  · rw [if_neg h]
    omega

theorem upsertStartTimes_chain (s : Int) :
    (ts : List Int) → List.Chain (fun a b => a + 7 ≤ b) s (upsertStartTimes (some s) ts)
  | [] => List.Chain.nil
  | t :: ts =>
    List.Chain.cons (upsertStart_ge s t)
      (upsertStartTimes_chain (upsertStart t (some s)) ts)

/-- Claim C6. Rate limiting: (1) for every sequence of delivery calls made
through one client instance, consecutive request-initiation times are at
least the configured minimum interval of 7 seconds apart; (2) for every
call that passes the pre-flight checks, the client's `last_request_time`
is set to the request-initiation time itself — before the response
returns: it does not depend on the response latency or on whether the
HTTP request succeeds, and the PUT is issued exactly at that time. -/
theorem claim_C6_rate_limit {P : Type} :
    (∀ (last : Option Int) (ts : List Int),
      List.Chain' (fun a b => a + 7 ≤ b) (upsertStartTimes last ts)) ∧
    (∀ (last : Option Int) (t : Int) (products : List P) (latency : Int)
      (httpSuccess : Bool), products ≠ [] → products.length ≤ 100 →
      (upsert_product_batch last t products latency httpSuccess).lastRequestTime =
          some (upsertStart t last) ∧
        TidioEvent.putRequest (upsertStart t last) products.length ∈
          (upsert_product_batch last t products latency httpSuccess).events) := by
  constructor
  · intro last ts
    match ts with
    | [] => exact List.chain'_nil
    | t :: ts =>
      show List.Chain (fun a b => a + 7 ≤ b) (upsertStart t last)
        (upsertStartTimes (some (upsertStart t last)) ts)
      exact upsertStartTimes_chain (upsertStart t last) ts
  · intro last t products latency httpSuccess hne hle
    have hemp : products.isEmpty = false := by
      cases products with
      | nil => exact absurd rfl hne
      | cons a l => rfl
    have hlen : ¬ products.length > 100 := by omega
    unfold upsert_product_batch
    rw [hemp]
    simp only [Bool.false_eq_true, if_false, if_neg hlen]
    refine ⟨?_, ?_⟩ <;> simp

/-- Witness for C6: a concrete two-call sequence (entry times 0 and 3)
and one concrete valid call. -/
theorem claim_C6_witness :
    List.Chain' (fun a b => a + 7 ≤ b) (upsertStartTimes none [0, 3]) ∧
    ((upsert_product_batch (some 0) 3 [true] 2 true).lastRequestTime =
        some (upsertStart 3 (some 0)) ∧
      TidioEvent.putRequest (upsertStart 3 (some 0)) 1 ∈
        (upsert_product_batch (some 0) 3 [true] 2 true).events) :=
  ⟨(claim_C6_rate_limit (P := Bool)).1 none [0, 3],
   (claim_C6_rate_limit (P := Bool)).2 (some 0) 3 [true] 2 true
     (by decide) (by decide)⟩

/-- Claim C10. The delivery client rejects an empty batch: for every client
state, entry time, response latency and HTTP outcome, calling
`upsert_product_batch` with an empty products list raises `ValueError`
with an empty event trace — no rate-limit sleep and no PUT request — and
leaves `last_request_time` untouched, so an empty batch can never be
delivered. -/
theorem claim_C10_empty_batch_rejected {P : Type} (last : Option Int) (t : Int)
    (latency : Int) (httpSuccess : Bool) :
    upsert_product_batch last t ([] : List P) latency httpSuccess =
      { events := [], result := .error PyError.valueError,
        lastRequestTime := last, finishTime := t } := by
  rfl

/-! ## Catalog fetcher: `MagentoCatalog.fetch_web_products`

The page size is fixed at 200 by `mag_product_criteria`.  The inner
`_fetch_web_products(current_page)` raises
`Exception("Something went wrong with fetching products.")` whenever the
JSON response has no `total_count` key.  The outer code requests page 1,
reads `total_count`, returns `[]` if it is `0`, computes
`total_pages = ceil(total_count / 200)` and requests pages
`2..total_pages` in increasing order, concatenating the `items` of all
requested pages.  The HTTP layer is an oracle `resp : page number →
PageResponse`; the first component of the result is the ordered trace of
requested page numbers. -/

structure PageResponse (I : Type) : Type where
  total_count : Option Nat
  items : List I

/-- The `for page in range(2, total_pages + 1)` loop, over the explicit
list of remaining page numbers. -/
def fetchRemainingPages {I : Type} (resp : Nat → PageResponse I) :
    List Nat → List Nat × Except PyError (List I)
  | [] => ([], .ok [])
  | p :: ps =>
    match (resp p).total_count with
    | none => ([p], .error PyError.valueError)
    | some _ =>
      let r := fetchRemainingPages resp ps
      match r.2 with
      | .error e => (p :: r.1, .error e)
      | .ok items => (p :: r.1, .ok ((resp p).items ++ items))

/-- Embeds `MagentoCatalog.fetch_web_products` of `src/app.py` (the filter set —
full vs. updated-since — does not affect the paging logic; it only
changes which oracle `resp` models the server). -/
def fetch_web_products {I : Type} (resp : Nat → PageResponse I) :
    List Nat × Except PyError (List I) :=
  match (resp 1).total_count with
  | none => ([1], .error PyError.valueError)
  | some tc =>
    if tc = 0 then ([1], .ok [])
    else
      let totalPages := (tc + 200 - 1) / 200
      let r := fetchRemainingPages resp (List.range' 2 (totalPages - 1))
      (1 :: r.1,
        match r.2 with
        | .error e => .error e
        | .ok items => .ok ((resp 1).items ++ items))

theorem fetchRemainingPages_all_present {I : Type} (resp : Nat → PageResponse I) :
    (ps : List Nat) → (∀ p ∈ ps, (resp p).total_count ≠ none) →
      fetchRemainingPages resp ps =
        (ps, .ok ((ps.map (fun p => (resp p).items)).flatten))
  | [], _ => by simp [fetchRemainingPages]
  | p :: ps, hall => by
    rw [fetchRemainingPages]
    match hp : (resp p).total_count with
    | none => exact absurd hp (hall p (List.mem_cons_self p ps))
    | some tc =>
      rw [fetchRemainingPages_all_present resp ps
        (fun q hq => hall q (List.mem_cons_of_mem p hq))]
      simp

theorem fetchRemainingPages_cons_none {I : Type} (resp : Nat → PageResponse I)
    (p : Nat) (ps : List Nat) (hp : (resp p).total_count = none) :
    fetchRemainingPages resp (p :: ps) = ([p], .error PyError.valueError) := by
  rw [fetchRemainingPages, hp]

theorem fetchRemainingPages_cons_some_error {I : Type} (resp : Nat → PageResponse I)
    (p : Nat) (ps : List Nat) (tc : Nat) (e : PyError)
    (hp : (resp p).total_count = some tc)
    (hr : (fetchRemainingPages resp ps).2 = .error e) :
    fetchRemainingPages resp (p :: ps) =
      (p :: (fetchRemainingPages resp ps).1, .error e) := by
  rw [fetchRemainingPages, hp]
  simp only [hr]

theorem fetchRemainingPages_cons_some_ok {I : Type} (resp : Nat → PageResponse I)
    (p : Nat) (ps : List Nat) (tc : Nat) (items2 : List I)
    (hp : (resp p).total_count = some tc)
    (hr : (fetchRemainingPages resp ps).2 = .ok items2) :
    fetchRemainingPages resp (p :: ps) =
      (p :: (fetchRemainingPages resp ps).1, .ok ((resp p).items ++ items2)) := by
  rw [fetchRemainingPages, hp]
  simp only [hr]

theorem fetchRemainingPages_ok_requires_counts {I : Type} (resp : Nat → PageResponse I) :
    (ps : List Nat) → ∀ items, (fetchRemainingPages resp ps).2 = .ok items →
      (fetchRemainingPages resp ps).1 = ps ∧ ∀ p ∈ ps, (resp p).total_count ≠ none
  | [], items, _ => ⟨rfl, by simp⟩
  | p :: ps, items, hok => by
    cases hp : (resp p).total_count with
    | none =>
      rw [fetchRemainingPages_cons_none resp p ps hp] at hok
      exact absurd hok (by simp)
    | some tc =>
      cases hr : (fetchRemainingPages resp ps).2 with
      | error e =>
        rw [fetchRemainingPages_cons_some_error resp p ps tc e hp hr] at hok
        exact absurd hok (by simp)
      | ok items2 =>
        obtain ⟨htr, hrest⟩ :=
          fetchRemainingPages_ok_requires_counts resp ps items2 hr
        rw [fetchRemainingPages_cons_some_ok resp p ps tc items2 hp hr]
        refine ⟨by rw [htr], ?_⟩
        intro q hq
        rcases List.mem_cons.mp hq with h1 | h2
        · rw [h1, hp]
          simp
        · exact hrest q h2

theorem fetch_web_products_first_none {I : Type} (resp : Nat → PageResponse I)
    (h1 : (resp 1).total_count = none) :
    fetch_web_products resp = ([1], .error PyError.valueError) := by
  rw [fetch_web_products, h1]

theorem fetch_web_products_zero {I : Type} (resp : Nat → PageResponse I)
    (h1 : (resp 1).total_count = some 0) :
    fetch_web_products resp = ([1], .ok []) := by
  rw [fetch_web_products, h1]
  rfl

theorem fetch_web_products_pos {I : Type} (resp : Nat → PageResponse I) (tc : Nat)
    (h1 : (resp 1).total_count = some tc) (htc : ¬ tc = 0) :
    fetch_web_products resp =
      (1 :: (fetchRemainingPages resp (List.range' 2 ((tc + 200 - 1) / 200 - 1))).1,
        match (fetchRemainingPages resp (List.range' 2 ((tc + 200 - 1) / 200 - 1))).2 with
        | .error e => .error e
        | .ok items => .ok ((resp 1).items ++ items)) := by
  rw [fetch_web_products, h1]
  simp only [if_neg htc]

/-- Claim C8. The catalog fetch (1) fails with an error when the first page
response lacks a total-count field, and, in general, a successful fetch
requires every requested page to carry the field; (2) returns an empty
sequence — not an error — when the reported total count is exactly zero;
(3) when the total count is positive and the pages are well-formed, it
requests exactly the pages `1, 2, ..., ceil(total_count / 200)` in
increasing order, stopping after all pages implied by the total count,
and succeeds with the concatenated items. -/
theorem claim_C8_fetch_paging {I : Type} (resp : Nat → PageResponse I) :
    ((resp 1).total_count = none →
      fetch_web_products resp = ([1], .error PyError.valueError)) ∧
    ((resp 1).total_count = some 0 →
      fetch_web_products resp = ([1], .ok [])) ∧
    (∀ items, (fetch_web_products resp).2 = .ok items →
      ∀ p ∈ (fetch_web_products resp).1, (resp p).total_count ≠ none) ∧
    (∀ tc, (resp 1).total_count = some tc → 0 < tc →
      (∀ p ∈ List.range' 2 ((tc + 200 - 1) / 200 - 1), (resp p).total_count ≠ none) →
      (fetch_web_products resp).1 = List.range' 1 ((tc + 200 - 1) / 200) ∧
      (fetch_web_products resp).2 =
        .ok (((List.range' 1 ((tc + 200 - 1) / 200)).map
          (fun p => (resp p).items)).flatten)) := by
  refine ⟨?_, ?_, ?_, ?_⟩
  · exact fetch_web_products_first_none resp
  · exact fetch_web_products_zero resp
  · intro items hok p hp
    cases h1 : (resp 1).total_count with
    | none =>
      rw [fetch_web_products_first_none resp h1] at hok
      exact absurd hok (by simp)
    | some tc =>
      by_cases htc : tc = 0
      · rw [htc] at h1
        rw [fetch_web_products_zero resp h1] at hp
        simp only [List.mem_singleton] at hp
        rw [hp, h1]
        simp
      · cases hr : (fetchRemainingPages resp
            (List.range' 2 ((tc + 200 - 1) / 200 - 1))).2 with
        | error e =>
          rw [fetch_web_products_pos resp tc h1 htc] at hok
          simp only [hr] at hok
          exact absurd hok (by simp)
        | ok items2 =>
          rw [fetch_web_products_pos resp tc h1 htc] at hok hp
          obtain ⟨htr, hall⟩ := fetchRemainingPages_ok_requires_counts resp
            (List.range' 2 ((tc + 200 - 1) / 200 - 1)) items2 hr
          simp only at hp
          rcases List.mem_cons.mp hp with hp1 | hp2
          · rw [hp1, h1]
            simp
          · rw [htr] at hp2
            exact hall p hp2
  · intro tc h1 hpos hall
    rw [fetch_web_products_pos resp tc h1 (by omega)]
    rw [fetchRemainingPages_all_present resp (List.range' 2 ((tc + 200 - 1) / 200 - 1)) hall]
    have hge : 1 ≤ (tc + 200 - 1) / 200 := by
      apply Nat.le_div_iff_mul_le (by omega) |>.mpr
      omega
    have hsplit : List.range' 1 ((tc + 200 - 1) / 200) =
        1 :: List.range' 2 ((tc + 200 - 1) / 200 - 1) := by
      have h2 : (tc + 200 - 1) / 200 = ((tc + 200 - 1) / 200 - 1) + 1 := by omega
      rw [h2]
      simpa using List.range'_succ 1 ((tc + 200 - 1) / 200 - 1) 1
    rw [hsplit]
    simp

/-- Witness for C8 at concrete oracles: a total-count-less error
envelope, a zero total count, and a total count of 300 (two pages of
200, every page present, page `p` carrying item `p`). -/
theorem claim_C8_witness :
    fetch_web_products (fun _ => (⟨none, []⟩ : PageResponse Nat)) =
      ([1], .error PyError.valueError) ∧
    fetch_web_products (fun _ => (⟨some 0, []⟩ : PageResponse Nat)) =
      ([1], .ok []) ∧
    ((fun q => (⟨some 300, [q]⟩ : PageResponse Nat)) 2).total_count ≠ none ∧
    ((fetch_web_products (fun p => (⟨some 300, [p]⟩ : PageResponse Nat))).1 =
        List.range' 1 ((300 + 200 - 1) / 200) ∧
      (fetch_web_products (fun p => (⟨some 300, [p]⟩ : PageResponse Nat))).2 =
        .ok (((List.range' 1 ((300 + 200 - 1) / 200)).map
          (fun p => ((fun q => (⟨some 300, [q]⟩ : PageResponse Nat)) p).items)).flatten)) :=
  ⟨(claim_C8_fetch_paging (fun _ => ⟨none, []⟩)).1 rfl,
   (claim_C8_fetch_paging (fun _ => ⟨some 0, []⟩)).2.1 rfl,
   (claim_C8_fetch_paging (fun p => ⟨some 300, [p]⟩)).2.2.1 [1, 2] rfl 2
     (by decide),
   (claim_C8_fetch_paging (fun p => ⟨some 300, [p]⟩)).2.2.2 300 rfl (by omega)
     (by intro p hp; simp)⟩

/-! ## Price resolver: `MagentoCatalog.fetch_all_prices` and the
price-on-application SKU filter of `parse_and_write_magento_products`

`fetch_all_prices(skus, id_to_sku)` chunks `skus` into groups of 50
(`skus[i : i + 50]` = `batchedList 50 skus`), issues one lookup per
chunk, and for each response item resolves `id_to_sku.get(item["id"])` —
a falsy result (missing id or empty-string SKU) is logged and skipped —
and stores `final_price` under the SKU, later writes overwriting earlier
ones.  `sku_prices` is embedded as `String → Option Int` (`none` =
absent key); the per-chunk HTTP response is an oracle.

The caller (`parse_and_write_magento_products`) queries only
`[p["sku"] for p in updates if int(attrs.get("priceonapplication", 0)) != 1]`
and resolves each record's price as `price_map.get(p["sku"], "null")`. -/

structure PriceItem : Type where
  id : Nat
  final_price : Int
deriving DecidableEq, Repr

abbrev PriceMap : Type := String → Option Int

def insertPrice (m : PriceMap) (k : String) (v : Int) : PriceMap :=
  fun q => if q = k then some v else m q

/-- The `for item in response.json().get("items") or []` loop body. -/
def processPriceItems (idToSku : Nat → Option String) :
    List PriceItem → PriceMap → PriceMap
  | [], m => m
  | item :: rest, m =>
    match idToSku item.id with
    | none => processPriceItems idToSku rest m
    | some sku =>
      if sku = "" then processPriceItems idToSku rest m
      else processPriceItems idToSku rest (insertPrice m sku item.final_price)

/-- Embeds `MagentoCatalog.fetch_all_prices(skus, id_to_sku)` of `src/app.py`;
`response chunk` is the `items` list the price API returns for a chunk. -/
def fetch_all_prices (idToSku : Nat → Option String)
    (response : List String → List PriceItem) (skus : List String) : PriceMap :=
  (batchedList 50 skus).foldl
    (fun m chunk => processPriceItems idToSku (response chunk) m) (fun _ => none)

/-- The destination price field: numeric, or the `"null"` sentinel. -/
inductive TidioPrice : Type
  | price (v : Int)
  | nullSentinel
deriving DecidableEq, Repr

/-- Embeds `price_map.get(product["sku"], "null")` (line 488 of `src/app.py`). -/
def resolve_record_price (m : PriceMap) (sku : String) : TidioPrice :=
  match m sku with
  | some v => .price v
  | none => .nullSentinel

/-- A catalog record as needed by the SKU filter: its `id`, `sku` and the
derived custom-attribute index (`build_attribute_index`), of which only
the integer-coerced `priceonapplication` entry matters here. -/
structure MagProduct : Type where
  id : Nat
  sku : String
  attrs : String → Option Int

/-- Embeds `int(attrs_by_sku[p["sku"]].get("priceonapplication", 0))`. -/
def poaFlag (p : MagProduct) : Int :=
  (p.attrs "priceonapplication").getD 0

/-- The queried SKU list of `parse_and_write_magento_products`:
`[p["sku"] for p in updates if int(...get("priceonapplication", 0)) != 1]`. -/
def filtered_skus (products : List MagProduct) : List String :=
  (products.filter (fun p => poaFlag p ≠ 1)).map (fun p => p.sku)

/-- Responses only mention ids whose SKU was part of the queried chunk —
the price API is queried with an `in`-filter on exactly those SKUs. -/
def ResponseWellFormed (idToSku : Nat → Option String)
    (response : List String → List PriceItem) (skus : List String) : Prop :=
  ∀ chunk ∈ batchedList 50 skus, ∀ item ∈ response chunk,
    ∀ s, idToSku item.id = some s → s ∈ chunk

theorem processPriceItems_no_mention {idToSku : Nat → Option String} :
    (items : List PriceItem) → (m : PriceMap) → (s : String) →
      (∀ item ∈ items, idToSku item.id ≠ some s) →
      processPriceItems idToSku items m s = m s
  | [], m, s, _ => rfl
  | item :: rest, m, s, hno => by
    rw [processPriceItems]
    cases hid : idToSku item.id with
    | none =>
      exact processPriceItems_no_mention rest m s
        (fun it hit => hno it (List.mem_cons_of_mem item hit))
    | some sku =>
      dsimp only
      by_cases hemp : sku = ""
      · rw [if_pos hemp]
        exact processPriceItems_no_mention rest m s
          (fun it hit => hno it (List.mem_cons_of_mem item hit))
      · rw [if_neg hemp]
        rw [processPriceItems_no_mention rest _ s
          (fun it hit => hno it (List.mem_cons_of_mem item hit))]
        have hss : ¬ s = sku := by
          intro heq
          exact hno item (List.mem_cons_self item rest) (heq ▸ hid)
        rw [insertPrice, if_neg hss]

theorem fetch_all_prices_absent (idToSku : Nat → Option String)
    (response : List String → List PriceItem) (skus : List String) (s : String)
    (hno : ∀ chunk ∈ batchedList 50 skus, ∀ item ∈ response chunk,
      idToSku item.id ≠ some s) :
    fetch_all_prices idToSku response skus s = none := by
  unfold fetch_all_prices
  have hgen : ∀ (chunks : List (List String)) (m : PriceMap),
      (∀ chunk ∈ chunks, ∀ item ∈ response chunk, idToSku item.id ≠ some s) →
      m s = none →
      (chunks.foldl (fun m chunk => processPriceItems idToSku (response chunk) m) m) s =
        none := by
    intro chunks
    induction chunks with
    | nil => intro m _ hm; exact hm
    | cons c cs ih =>
      intro m hall hm
      rw [List.foldl_cons]
      exact ih _ (fun c2 hc2 => hall c2 (List.mem_cons_of_mem c hc2))
        (by rw [processPriceItems_no_mention (response c) m s
              (hall c (List.mem_cons_self c cs))]
            exact hm)
  exact hgen (batchedList 50 skus) (fun _ => none) hno rfl

/-- Claim C7. Price resolution.  (1) A SKU every holder of which is flagged
price-on-application is never part of any price-query chunk; (2) under
well-formed responses its price resolves to the `"null"` sentinel;
(3) a SKU that no response item mentions is absent from the resolved
mapping, and such absence resolves the record price to the `"null"`
sentinel; (4) a response item whose id is not in the id-to-sku mapping
is skipped without error: processing it is the same as processing the
remaining items. -/
theorem claim_C7_price_resolution :
    (∀ (products : List MagProduct) (s : String),
      (∀ p ∈ products, p.sku = s → poaFlag p = 1) →
      ∀ chunk ∈ batchedList 50 (filtered_skus products), s ∉ chunk) ∧
    (∀ (products : List MagProduct) (idToSku : Nat → Option String)
      (response : List String → List PriceItem) (s : String),
      (∀ p ∈ products, p.sku = s → poaFlag p = 1) →
      ResponseWellFormed idToSku response (filtered_skus products) →
      fetch_all_prices idToSku response (filtered_skus products) s = none ∧
      resolve_record_price
        (fetch_all_prices idToSku response (filtered_skus products)) s =
          TidioPrice.nullSentinel) ∧
    (∀ (idToSku : Nat → Option String) (response : List String → List PriceItem)
      (skus : List String) (s : String),
      (∀ chunk ∈ batchedList 50 skus, ∀ item ∈ response chunk,
        idToSku item.id ≠ some s) →
      fetch_all_prices idToSku response skus s = none ∧
      resolve_record_price (fetch_all_prices idToSku response skus) s =
        TidioPrice.nullSentinel) ∧
    (∀ (idToSku : Nat → Option String) (items : List PriceItem) (m : PriceMap)
      (item : PriceItem), idToSku item.id = none →
      processPriceItems idToSku (item :: items) m = processPriceItems idToSku items m) := by
  have key : ∀ (products : List MagProduct) (s : String),
      (∀ p ∈ products, p.sku = s → poaFlag p = 1) →
      ∀ chunk ∈ batchedList 50 (filtered_skus products), s ∉ chunk := by
    intro products s hpoa chunk hchunk hs
    have hjoin : s ∈ (batchedList 50 (filtered_skus products)).flatten :=
      List.mem_flatten.mpr ⟨chunk, hchunk, hs⟩
    rw [batchedList_flatten] at hjoin
    unfold filtered_skus at hjoin
    rw [List.mem_map] at hjoin
    obtain ⟨p, hp, hsku⟩ := hjoin
    rw [List.mem_filter] at hp
    obtain ⟨hpmem, hpflag⟩ := hp
    have : poaFlag p = 1 := hpoa p hpmem hsku
    simp [this] at hpflag
  refine ⟨key, ?_, ?_, ?_⟩
  · intro products idToSku response s hpoa hwf
    have habs : fetch_all_prices idToSku response (filtered_skus products) s = none := by
      apply fetch_all_prices_absent
      intro chunk hchunk item hitem hsome
      exact key products s hpoa chunk hchunk (hwf chunk hchunk item hitem s hsome)
    refine ⟨habs, ?_⟩
    rw [resolve_record_price, habs]
  · intro idToSku response skus s hno
    have habs := fetch_all_prices_absent idToSku response skus s hno
    refine ⟨habs, ?_⟩
    rw [resolve_record_price, habs]
  · intro idToSku items m item hid
    rw [processPriceItems, hid]

/-- Witness for C7 at concrete inputs: one price-on-application product
with SKU `A`, an id map that knows only id 1, an empty price response,
and a response item with the unknown id 2. -/
theorem claim_C7_witness :
    (∀ chunk ∈ batchedList 50 (filtered_skus
        [⟨1, "A", fun k => if k = "priceonapplication" then some 1 else none⟩]),
      "A" ∉ chunk) ∧
    (fetch_all_prices (fun n => if n = 1 then some "B" else none) (fun _ => [])
        (filtered_skus
          [⟨1, "A", fun k => if k = "priceonapplication" then some 1 else none⟩])
        "A" = none ∧
      resolve_record_price
        (fetch_all_prices (fun n => if n = 1 then some "B" else none) (fun _ => [])
          (filtered_skus
            [⟨1, "A", fun k => if k = "priceonapplication" then some 1 else none⟩]))
        "A" = TidioPrice.nullSentinel) ∧
    (fetch_all_prices (fun n => if n = 1 then some "B" else none)
        (fun _ => []) ["B"] "A" = none ∧
      resolve_record_price (fetch_all_prices
        (fun n => if n = 1 then some "B" else none) (fun _ => []) ["B"]) "A" =
        TidioPrice.nullSentinel) ∧
    processPriceItems (fun n => if n = 1 then some "B" else none)
        [⟨2, 55⟩, ⟨1, 44⟩] (fun _ => none) =
      processPriceItems (fun n => if n = 1 then some "B" else none)
        [⟨1, 44⟩] (fun _ => none) :=
  ⟨claim_C7_price_resolution.1
      [⟨1, "A", fun k => if k = "priceonapplication" then some 1 else none⟩] "A"
      (by decide),
   claim_C7_price_resolution.2.1
      [⟨1, "A", fun k => if k = "priceonapplication" then some 1 else none⟩]
      (fun n => if n = 1 then some "B" else none) (fun _ => []) "A"
      (by decide)
      (by intro chunk hchunk item hitem; simp at hitem),
   claim_C7_price_resolution.2.2.1
      (fun n => if n = 1 then some "B" else none) (fun _ => []) ["B"] "A"
      (by intro chunk hchunk item hitem; simp at hitem),
   claim_C7_price_resolution.2.2.2
      (fun n => if n = 1 then some "B" else none) [⟨1, 44⟩] (fun _ => none)
      ⟨2, 55⟩ (by simp)⟩

/-! ## Record transformer: timestamp
(`MagentoCatalog.iso8601_format_updated_at`)

The Python method raises `ValueError` when `updated_at` is falsy (the
empty string), then `pendulum.from_format(updated_at,
"YYYY-MM-DD HH:mm:ss")` parses the fixed-width form (raising a parser
error on anything else, including impossible calendar dates) and
`.to_datetime_string()` renders the parsed instant back as
`YYYY-MM-DD HH:mm:ss`.  The parse and render are embedded directly;
characters are code points, as in Python. -/

structure DateTimeParts : Type where
  year : Nat
  month : Nat
  day : Nat
  hour : Nat
  minute : Nat
  second : Nat
deriving DecidableEq, Repr

def isLeapYear (y : Nat) : Bool :=
  (y % 4 == 0 && y % 100 != 0) || (y % 400 == 0)

def daysInMonth (y m : Nat) : Nat :=
  if m = 2 then (if isLeapYear y then 29 else 28)
  else if m = 4 ∨ m = 6 ∨ m = 9 ∨ m = 11 then 30
  else 31

def digitVal (c : Char) : Nat := c.toNat - 48

def twoDigits (a b : Char) : Nat := 10 * digitVal a + digitVal b

/-- Embeds `pendulum.from_format(s, "YYYY-MM-DD HH:mm:ss")`: succeeds exactly on
19-character strings of the fixed-width shape whose fields form a real
calendar date and a valid time of day. -/
def parseFixedDateTime (s : String) : Option DateTimeParts :=
  match s.data with
  | [y1, y2, y3, y4, c1, mo1, mo2, c2, d1, d2, c3, h1, h2, c4, mi1, mi2, c5, se1, se2] =>
    if (c1 = '-' ∧ c2 = '-' ∧ c3 = ' ' ∧ c4 = ':' ∧ c5 = ':') ∧
       (y1.isDigit ∧ y2.isDigit ∧ y3.isDigit ∧ y4.isDigit ∧
        mo1.isDigit ∧ mo2.isDigit ∧ d1.isDigit ∧ d2.isDigit ∧
        h1.isDigit ∧ h2.isDigit ∧ mi1.isDigit ∧ mi2.isDigit ∧
        se1.isDigit ∧ se2.isDigit) then
      let year := 1000 * digitVal y1 + 100 * digitVal y2 + 10 * digitVal y3 + digitVal y4
      let month := twoDigits mo1 mo2
      let day := twoDigits d1 d2
      let hour := twoDigits h1 h2
      let minute := twoDigits mi1 mi2
      let second := twoDigits se1 se2
      if 1 ≤ month ∧ month ≤ 12 ∧ 1 ≤ day ∧ day ≤ daysInMonth year month ∧
         hour ≤ 23 ∧ minute ≤ 59 ∧ second ≤ 59 then
        some ⟨year, month, day, hour, minute, second⟩
      else none
    else none
  | _ => none

def digitChar (n : Nat) : Char := Char.ofNat (48 + n % 10)

def pad2 (n : Nat) : String := String.mk [digitChar (n / 10), digitChar n]

def pad4 (n : Nat) : String :=
  String.mk [digitChar (n / 1000), digitChar (n / 100), digitChar (n / 10), digitChar n]

/-- pendulum's `.to_datetime_string()`: `YYYY-MM-DD HH:mm:ss`. -/
def to_datetime_string (dt : DateTimeParts) : String :=
  pad4 dt.year ++ "-" ++ pad2 dt.month ++ "-" ++ pad2 dt.day ++ " " ++
    pad2 dt.hour ++ ":" ++ pad2 dt.minute ++ ":" ++ pad2 dt.second

/-- Embeds `MagentoCatalog.iso8601_format_updated_at` of `src/app.py`. -/
def iso8601_format_updated_at (s : String) : Except PyError String :=
  if s = "" then .error PyError.valueError
  else
    match parseFixedDateTime s with
    | none => .error PyError.parserError
    | some dt => .ok (to_datetime_string dt)

/-- The ISO-8601 extended shape the spec refers to: four year digits,
two-digit month, day, hour, minute, second with `-`/`:` separators (as
produced by pendulum's datetime string rendering). -/
def isIso8601Compatible (s : String) : Bool :=
  match s.data with
  | [y1, y2, y3, y4, c1, mo1, mo2, c2, d1, d2, c3, h1, h2, c4, mi1, mi2, c5, se1, se2] =>
    y1.isDigit && y2.isDigit && y3.isDigit && y4.isDigit && (c1 == '-') &&
    mo1.isDigit && mo2.isDigit && (c2 == '-') && d1.isDigit && d2.isDigit &&
    (c3 == ' ') && h1.isDigit && h2.isDigit && (c4 == ':') && mi1.isDigit &&
    mi2.isDigit && (c5 == ':') && se1.isDigit && se2.isDigit
  | _ => false

theorem digitChar_isDigit (n : Nat) : (digitChar n).isDigit = true := by
  unfold digitChar
  have h10 : n % 10 = 0 ∨ n % 10 = 1 ∨ n % 10 = 2 ∨ n % 10 = 3 ∨ n % 10 = 4 ∨
      n % 10 = 5 ∨ n % 10 = 6 ∨ n % 10 = 7 ∨ n % 10 = 8 ∨ n % 10 = 9 := by omega
  rcases h10 with h | h | h | h | h | h | h | h | h | h <;> rw [h] <;> rfl

theorem data_mk (l : List Char) : (String.mk l).data = l := rfl

theorem to_datetime_string_data (dt : DateTimeParts) :
    (to_datetime_string dt).data =
      [digitChar (dt.year / 1000), digitChar (dt.year / 100),
       digitChar (dt.year / 10), digitChar dt.year,
       '-', digitChar (dt.month / 10), digitChar dt.month,
       '-', digitChar (dt.day / 10), digitChar dt.day,
       ' ', digitChar (dt.hour / 10), digitChar dt.hour,
       ':', digitChar (dt.minute / 10), digitChar dt.minute,
       ':', digitChar (dt.second / 10), digitChar dt.second] := by
  have hdash : ("-" : String).data = ['-'] := rfl
  have hspace : (" " : String).data = [' '] := rfl
  have hcolon : (":" : String).data = [':'] := rfl
  simp [to_datetime_string, pad4, pad2, String.data_append, data_mk,
    hdash, hspace, hcolon]

theorem to_datetime_string_iso (dt : DateTimeParts) :
    isIso8601Compatible (to_datetime_string dt) = true := by
  unfold isIso8601Compatible
  rw [to_datetime_string_data]
  simp [digitChar_isDigit]

/-- Claim C3. For every input string in the fixed-width `YYYY-MM-DD
HH:mm:ss` form (every string the source parser accepts), the timestamp
step succeeds and returns an ISO-8601-compatible datetime string; for the
empty (absent) input it fails with a format error. -/
theorem claim_C3_timestamp_format :
    (∀ (s : String) (dt : DateTimeParts), parseFixedDateTime s = some dt →
      iso8601_format_updated_at s = .ok (to_datetime_string dt) ∧
      isIso8601Compatible (to_datetime_string dt) = true) ∧
    iso8601_format_updated_at "" = .error PyError.valueError := by
  constructor
  · intro s dt hparse
    have hne : ¬ s = "" := by
      intro h
      rw [h] at hparse
      have hnil : parseFixedDateTime "" = none := rfl
      rw [hnil] at hparse
      exact Option.noConfusion hparse
    constructor
    · unfold iso8601_format_updated_at
      rw [if_neg hne, hparse]
    · exact to_datetime_string_iso dt
  · rfl

/-- Witness for C3 at the concrete timestamp `2024-05-17 13:45:09`. -/
theorem claim_C3_witness :
    iso8601_format_updated_at "2024-05-17 13:45:09" =
        .ok (to_datetime_string ⟨2024, 5, 17, 13, 45, 9⟩) ∧
      isIso8601Compatible (to_datetime_string ⟨2024, 5, 17, 13, 45, 9⟩) = true :=
  claim_C3_timestamp_format.1 "2024-05-17 13:45:09" ⟨2024, 5, 17, 13, 45, 9⟩
    (by decide)

/-! ## Record transformer: features (`MagentoCatalog.extract_features`)

For each custom attribute the Python code skips excluded codes and falsy
(empty) values, resolves a human label through
`fetch_web_atrribute_value_label` (falling back to the raw value when the
label is falsy), strips `filt_` from the code (`str.replace` replaces
every occurrence) to form the key, runs

    if 250 > len(value):
        value = value[:249]

and stores the value in the `features` dict.  The label lookup is an
oracle `labelOf`; Python string slicing by code points is `strSlice`. -/

structure CustomAttribute : Type where
  attribute_code : String
  value : String
deriving DecidableEq, Repr

abbrev FeatureMap : Type := String → Option String

def featureInsert (m : FeatureMap) (k v : String) : FeatureMap :=
  fun q => if q = k then some v else m q

/-- Python's `value[:n]` on a string (slice of the first `n` code points). -/
def strSlice (s : String) (n : Nat) : String := String.mk (s.data.take n)

/-- One left-to-right pass of Python's `str.replace`: at each position,
if the (non-empty) pattern starts here, emit the replacement and continue
after the matched segment, else keep the character.  The fuel argument —
instantiated with the string length, an upper bound on the number of
steps — only makes the recursion structural. -/
def replaceAllFuel (pat repl : List Char) : Nat → List Char → List Char
  | 0, l => l
  | _ + 1, [] => []
  | fuel + 1, c :: rest =>
    if pat.isPrefixOf (c :: rest) ∧ pat ≠ [] then
      repl ++ replaceAllFuel pat repl fuel (rest.drop (pat.length - 1))
    else c :: replaceAllFuel pat repl fuel rest

/-- Python's `s.replace(pat, repl)` (all occurrences). -/
def pyStrReplace (s pat repl : String) : String :=
  String.mk (replaceAllFuel pat.data repl.data s.data.length s.data)

/-- The length-guard-and-truncate statement of `extract_features`,
exactly as written in the source: `if 250 > len(value): value = value[:249]`. -/
def truncStep (value : String) : String :=
  if 250 > value.length then strSlice value 249 else value

/-- Embeds `MagentoCatalog.extract_features(product)` of `src/app.py`, over the
product's `custom_attributes`, the configured `EXCLUDED_FEATURES` set and
the attribute-label lookup oracle. -/
def extract_features (excluded : List String)
    (labelOf : String → String → Option String)
    (custom_attributes : List CustomAttribute) : FeatureMap :=
  custom_attributes.foldl (fun feats attr =>
    if attr.attribute_code ∈ excluded then feats
    else if attr.value = "" then feats
    else
      let label := labelOf attr.attribute_code attr.value
      let value :=
        match label with
        | some l => if l = "" then attr.value else l
        | none => attr.value
      let key := pyStrReplace attr.attribute_code "filt_" ""
      featureInsert feats key (truncStep value)) (fun _ => none)

/-- A 300-character feature value. -/
def longFeatureValue : String := String.mk (List.replicate 300 'a')

theorem strSlice_of_short (s : String) (n : Nat) (h : s.length ≤ n) :
    strSlice s n = s := by
  unfold strSlice
  rw [List.take_of_length_le (by exact h)]

/-- Claim C1, code evaluation. The truncation branch of
`extract_features` is a no-op: its guard `250 > len(value)` fires only
when the value is already at most 249 characters, in which case
`value[:249]` changes nothing — so every feature value is stored
unmodified.  In particular a 300-character attribute value (no label, not
excluded) is stored with length 300, not truncated to 249. -/
theorem truncStep_eq_id (value : String) : truncStep value = value := by
  unfold truncStep
  by_cases h : 250 > value.length
  · rw [if_pos h]
    exact strSlice_of_short value 249 (by omega)
  · rw [if_neg h]

set_option maxRecDepth 8000 in
theorem claim_C1_truncation_dead_code :
    (∀ value : String, truncStep value = value) ∧
    extract_features [] (fun _ _ => none) [⟨"finish", longFeatureValue⟩] "finish" =
      some longFeatureValue ∧
    longFeatureValue.length = 300 := by
  have hlen300 : longFeatureValue.length = 300 := by
    show (List.replicate 300 'a').length = 300
    exact List.length_replicate 300 'a'
  refine ⟨truncStep_eq_id, ?_, hlen300⟩
  have hne2 : ¬ longFeatureValue = "" := by
    intro h
    rw [h] at hlen300
    have h0 : ("" : String).length = 0 := rfl
    omega
  unfold extract_features
  rw [List.foldl_cons, List.foldl_nil]
  dsimp only
  rw [if_neg (List.not_mem_nil "finish"), if_neg hne2, truncStep_eq_id]
  unfold featureInsert
  rw [if_pos (by decide : ("finish" : String) = pyStrReplace "finish" "filt_" "")]

/-! ## Record transformer: image URL
(`MagentoCatalog.determine_web_product_image_url`)

The Python method first raises `ValueError` when `product_media` is not a
list or is falsy — which includes the empty list — then has an
unreachable `if len(product_media) == 0: return None`, then returns the
URL built from the first media entry whose `types` contains `"image"`,
or `None` when no entry qualifies. -/

structure MediaEntry : Type where
  types : List String
  file : String
deriving DecidableEq, Repr

/-- Embeds `MagentoCatalog.determine_web_product_image_url(product_media)` of
`src/app.py`; `magDomain` is the configured `WEB_DOMAIN` media base. -/
def determine_web_product_image_url (magDomain : String)
    (product_media : List MediaEntry) : Except PyError (Option String) :=
  if product_media.isEmpty then .error PyError.valueError
  else if product_media.length = 0 then .ok none
  else
    match product_media.find? (fun m => "image" ∈ m.types) with
    | some m => .ok (some (magDomain ++ "/media/catalog/product" ++ m.file))
    | none => .ok none

/-- Claim C2, code evaluation. On the empty media list the image-URL step
raises `ValueError` — it does not return absent: the `not product_media`
guard fires before the (unreachable) empty-list branch.  On a non-empty
list it behaves as specified: the URL of the first entry whose `types`
contains `"image"`, absent when no entry qualifies. -/
theorem claim_C2_image_url :
    (∀ magDomain : String,
      determine_web_product_image_url magDomain [] = .error PyError.valueError) ∧
    (∀ (magDomain : String) (media : List MediaEntry) (m : MediaEntry),
      media ≠ [] → media.find? (fun m2 => "image" ∈ m2.types) = some m →
      determine_web_product_image_url magDomain media =
        .ok (some (magDomain ++ "/media/catalog/product" ++ m.file))) ∧
    (∀ (magDomain : String) (media : List MediaEntry),
      media ≠ [] → media.find? (fun m2 => "image" ∈ m2.types) = none →
      determine_web_product_image_url magDomain media = .ok none) := by
  refine ⟨?_, ?_, ?_⟩
  · intro magDomain
    rfl
  · intro magDomain media m hne hfind
    have hemp : media.isEmpty = false := by
      cases media with
      | nil => exact absurd rfl hne
      | cons a l => rfl
    have hlen : ¬ media.length = 0 := by
      cases media with
      | nil => exact absurd rfl hne
      | cons a l => simp
    unfold determine_web_product_image_url
    rw [hemp]
    simp only [Bool.false_eq_true, if_false, if_neg hlen, hfind]
  · intro magDomain media hne hfind
    have hemp : media.isEmpty = false := by
      cases media with
      | nil => exact absurd rfl hne
      | cons a l => rfl
    have hlen : ¬ media.length = 0 := by
      cases media with
      | nil => exact absurd rfl hne
      | cons a l => simp
    unfold determine_web_product_image_url
    rw [hemp]
    simp only [Bool.false_eq_true, if_false, if_neg hlen, hfind]

/-- Witness for C2 at concrete inputs: a two-entry media list whose
second entry is the first image, and a list with no image entry. -/
theorem claim_C2_witness :
    determine_web_product_image_url "https://shop.example" [] =
      .error PyError.valueError ∧
    determine_web_product_image_url "https://shop.example"
        [⟨["thumbnail"], "/t.jpg"⟩, ⟨["image", "small_image"], "/a.jpg"⟩] =
      .ok (some ("https://shop.example" ++ "/media/catalog/product" ++ "/a.jpg")) ∧
    determine_web_product_image_url "https://shop.example"
        [⟨["thumbnail"], "/t.jpg"⟩] = .ok none :=
  ⟨claim_C2_image_url.1 "https://shop.example",
   claim_C2_image_url.2.1 "https://shop.example"
     [⟨["thumbnail"], "/t.jpg"⟩, ⟨["image", "small_image"], "/a.jpg"⟩]
     ⟨["image", "small_image"], "/a.jpg"⟩ (by decide) (by decide),
   claim_C2_image_url.2.2 "https://shop.example" [⟨["thumbnail"], "/t.jpg"⟩]
     (by decide) (by decide)⟩

end TidioProducts
